import Mathlib

/-
Verification development for the nmag temporal-predicate scheduling engine.

The definitions below are a shallow embedding of the Python sources:
  * src/when/when.py          (predicate algebra: at / every / or / and / never,
                               the When wrapper with tolerance handling)
  * src/simulation/hysteresis.py (schedule builder, delta/lookahead calculator,
                               one iteration of the stepping loop)
  * src/throttler/throttler.py  (per-key rate limiter)

Python numbers (ints and floats) are modelled as exact rationals; Python
booleans, which are a subclass of int, are modelled by a separate
constructor together with their 0/1 coercion.  A value of type
`Option A` models a Python computation that may raise an exception or
fail to terminate (`none`); fuel bounds the iteration count of the
`_AndSpec.next_time` while-loop, which the source documents as
potentially non-terminating.
-/

set_option maxRecDepth 4000
set_option maxHeartbeats 1000000

namespace Nmag

attribute [local semireducible] Rat.add Rat.sub Rat.mul Rat.inv

/-- A Python value appearing in a time dictionary or as a next-time result:
either a bool or a number (int/float, modelled as an exact rational). -/
inductive PyVal where
  | bool (b : Bool)
  | num (q : ℚ)
deriving DecidableEq, Repr

/-- Numeric coercion of Python values: bools are ints with False = 0, True = 1. -/
def PyVal.toQ : PyVal → ℚ
  | .bool b => if b then 1 else 0
  | .num q => q

/-- Python `==` between numbers and bools: numeric comparison after coercion
(in Python, True == 1 and False == 0). -/
def pyEq (a b : PyVal) : Bool := a.toQ = b.toQ

/-- Association-list lookup, the model of Python `dict.get` (first match wins;
dict keys are unique so this is exact). -/
def lookupKey {β : Type} : List (String × β) → String → Option β
  | [], _ => none
  | (k, v) :: rest, key => if k = key then some v else lookupKey rest key

/-- Association-list update, the model of Python `d[k] = v`: replaces the
value at an existing key in place, appends a fresh key at the end. -/
def setKey {β : Type} : List (String × β) → String → β → List (String × β)
  | [], k, v => [(k, v)]
  | (k', v') :: rest, k, v =>
      if k' = k then (k, v) :: rest else (k', v') :: setKey rest k v

/-- The time dictionary handed to the predicate algebra: counter name to value. -/
def TimeDict := List (String × PyVal)

instance : DecidableEq TimeDict := by unfold TimeDict; infer_instance

/-- `dict.get` on a time dictionary. -/
def tdGet (t : TimeDict) (k : String) : Option PyVal := lookupKey t k

/-- `d[k] = v` on a time dictionary. -/
def tdSet (t : TimeDict) (k : String) (v : PyVal) : TimeDict := setKey t k v

/-- Python `int(q)`: truncation towards zero. -/
def pyTrunc (q : ℚ) : ℤ := if 0 ≤ q then ⌊q⌋ else ⌈q⌉

/-- Python `round(q)` to an integer: round half to even (banker's rounding). -/
def pyRound (q : ℚ) : ℤ :=
  let f := ⌊q⌋
  let r := q - f
  if r < 1/2 then f
  else if 1/2 < r then f + 1
  else if f % 2 = 0 then f else f + 1

/-- `math.isclose(a, b)` with the default rel_tol=1e-9 and abs_tol=0.0. -/
def pyIsClose (a b : ℚ) : Bool :=
  decide (|a - b| ≤ max (1/1000000000 * max |a| |b|) 0)

/-- `_float_is_integer(f)` from when.py: `math.isclose(f, round(f))`. -/
def floatIsInteger (f : ℚ) : Bool := pyIsClose f (pyRound f)

/-- The closed predicate algebra from when.py: `_AtSpec`, `_EverySpec`,
`_OrSpec`, `_AndSpec`, `_NeverSpec`. -/
inductive WhenSpec where
  | atSpec (identifier : String) (value : PyVal)
  | everySpec (identifier : String) (delta : Option ℚ) (first : ℚ) (last : Option ℚ)
  | orSpec (spec1 spec2 : WhenSpec)
  | andSpec (spec1 spec2 : WhenSpec)
  | neverSpec
deriving DecidableEq, Repr

/-- True when `last` is set and the current value has reached it
(the guard `self.last is not None and t >= self.last`). -/
def pastLast : Option ℚ → ℚ → Bool
  | none, _ => false
  | some l, tq => decide (l ≤ tq)

/-- True when `last` is set and `v` lies strictly beyond it
(the guards `t > self.last` and `next_t > self.last`). -/
def beyondLast : Option ℚ → ℚ → Bool
  | none, _ => false
  | some l, v => decide (l < v)

/-- `_EverySpec.match_time`.  The missing-key case returns False; comparisons
coerce bools to 0/1 exactly as Python number comparison does. -/
def everyMatch (sid : String) (delta : Option ℚ) (first : ℚ) (last : Option ℚ)
    (t : TimeDict) : Bool :=
  match tdGet t sid with
  | none => false
  | some tv =>
    let tq := tv.toQ
    if tq < first then false
    else if beyondLast last tq then false
    else match delta with
      | none => true
      | some d =>
        if d ≤ 0 then false
        else floatIsInteger ((tq - first) / d)

/-- `_WhenSpec.match_time` for the whole algebra. -/
def matchTime : WhenSpec → TimeDict → Bool
  | .atSpec sid v, t =>
      (match tdGet t sid with
       | none => false
       | some w => pyEq w v)
  | .everySpec sid d f l, t => everyMatch sid d f l t
  | .orSpec s1 s2, t => matchTime s1 t || matchTime s2 t
  | .andSpec s1 s2, t => matchTime s1 t && matchTime s2 t
  | .neverSpec, _ => false

/-- `_AtSpec.next_time`.  A missing key reaches the comparison
`None < self.value` and raises a TypeError, hence `none`. -/
def atNext (sid : String) (v : PyVal) (id : String) (t : TimeDict) : Option PyVal :=
  if sid ≠ id then some (.bool true)
  else match tdGet t id with
  | none => none
  | some (.bool b) =>
      if v = .bool true then some (.bool true)
      else some (.bool (pyEq (.bool b) v))
  | some (.num q) => if q < v.toQ then some v else some (.bool false)

/-- `_EverySpec.next_time` (for the spec's own identifier the full ladder of
guards; for an unrelated identifier the code returns `match_time`). -/
def everyNext (sid : String) (delta : Option ℚ) (first : ℚ) (last : Option ℚ)
    (id : String) (t : TimeDict) : Option PyVal :=
  if sid ≠ id then some (.bool (everyMatch sid delta first last t))
  else match tdGet t id with
  | none => some (.bool false)
  | some tv =>
    let tq := tv.toQ
    if pastLast last tq then some (.bool false)
    else if tq < first ∧ delta.isSome then some (.num first)
    else match delta with
      | none => some (.bool true)
      | some d =>
        if d ≤ 0 then some (.bool false)
        else
          let pos := (tq - first) / d
          let nextPos : ℤ := if floatIsInteger pos then pyRound pos + 1 else pyTrunc pos + 1
          let nextT := d * (nextPos : ℚ) + first
          if beyondLast last nextT then some (.bool false) else some (.num nextT)

/-- The branch ladder of `_OrSpec.next_time` after both children returned:
both bools are or-ed, a False yields the other child, a True wins,
two numbers take the minimum. -/
def orCombine (nt1 nt2 : PyVal) : PyVal :=
  match nt1, nt2 with
  | .bool b1, .bool b2 => .bool (b1 || b2)
  | .bool false, n2 => n2
  | n1, .bool false => n1
  | .bool true, _ => .bool true
  | _, .bool true => .bool true
  | .num q1, .num q2 => .num (min q1 q2)

/-- `_WhenSpec.next_time` over the algebra.  `none` models an exception or
fuel exhaustion.  Fuel decreases at every recursive call; the while-loop
of `_AndSpec.next_time` (whose only state is the trial time dictionary)
is realised by re-entering the and-case with the advanced trial dictionary,
so each loop iteration also consumes one unit of fuel — the source
documents that this fixed-point search need not terminate. -/
def nextTime : ℕ → WhenSpec → String → TimeDict → Option PyVal
  | 0, _, _, _ => none
  | _ + 1, .atSpec sid v, id, t => atNext sid v id t
  | _ + 1, .everySpec sid d f l, id, t => everyNext sid d f l id t
  | fuel + 1, .orSpec s1 s2, id, t =>
      (nextTime fuel s1 id t).bind fun n1 =>
        (nextTime fuel s2 id t).bind fun n2 =>
          some (orCombine n1 n2)
  | fuel + 1, .andSpec s1 s2, id, t =>
      (match tdGet t id with
       | none => some (PyVal.bool false)
       | some _ =>
           match nextTime fuel s1 id t, nextTime fuel s2 id t with
           | some nt1, some nt2 =>
             (match nt1, nt2 with
              | .bool false, _ => some (.bool false)
              | _, .bool false => some (.bool false)
              | .bool true, n2 => some n2
              | n1, .bool true => some n1
              | .num q1, .num q2 =>
                let p := if q2 < q1 then (q1, matchTime s2) else (q2, matchTime s1)
                let temp2 := tdSet t id (.num p.1)
                if p.2 temp2 then some (.num p.1)
                else nextTime fuel (.andSpec s1 s2) id temp2)
           | _, _ => none)
  | _ + 1, .neverSpec, _, _ => some (.bool false)

/-- `When.next_time`, the public wrapper adding the tolerance nudge.  Note
that Python's `isinstance(nt, (int, float))` is true for bools as well,
since bool is a subclass of int, so every raw result enters the nudge
check; `nt + tol` and `abs(nt - tt)` then coerce a bool to 0/1. -/
def whenNext (fuel : ℕ) (spec : WhenSpec) (id : String) (t : TimeDict)
    (tols : Option (List (String × ℚ))) : Option PyVal :=
  (nextTime fuel spec id t).bind fun nt =>
    match tols with
    | none => some nt
    | some m =>
      match lookupKey m id with
      | none => some nt
      | some tol =>
        match tdGet t id with
        | none => none
        | some tt =>
          if 0 < tol ∧ |nt.toQ - tt.toQ| < tol then
            nextTime fuel spec id (tdSet t id (.num (nt.toQ + tol)))
          else some nt

/-! ## hysteresis.py: delta/lookahead calculator -/

/-- A per-axis triple `(delta_step, delta_time, delta_real_time)` (or of
absolute next values) where `none` means the axis is unconstrained. -/
abbrev Triple : Type := Option ℚ × Option ℚ × Option ℚ

/-- The `minimum` helper of `_next_deltas` / `_next_time`:
`min((item for item in ls if item is not None), default=None)`. -/
def minOpt (ls : List (Option ℚ)) : Option ℚ :=
  match ls.filterMap id with
  | [] => none
  | x :: xs => some (xs.foldl min x)

/-- The `delta(name)` helper of `_next_deltas`: the next value for counter
`name` minus the counter's current value, `none` for a boolean next result
(`isinstance(n, bool)` is a strict bool check here).  The outer `none`
models an exception (a missing counter hit by `clock[name]`) or fuel
exhaustion. -/
def deltaOf (fuel : ℕ) (event : WhenSpec) (clock : TimeDict)
    (tols : Option (List (String × ℚ))) (name : String) : Option (Option ℚ) :=
  (whenNext fuel event name clock tols).bind fun n =>
    match n with
    | .bool _ => some none
    | .num q =>
      match tdGet clock name with
      | none => none
      | some c => some (some (q - c.toQ))

/-- `_next_deltas(event, clock, suggest, tols)`: aggregates per-counter
deltas into the three axes, folding in the suggested prior deltas
(`suggest or (None, None, None)`). -/
def nextDeltas (fuel : ℕ) (event : WhenSpec) (clock : TimeDict)
    (suggest : Option Triple) (tols : Option (List (String × ℚ))) :
    Option Triple :=
  let s := suggest.getD (none, none, none)
  (deltaOf fuel event clock tols "step").bind fun ds =>
  (deltaOf fuel event clock tols "stage_step").bind fun dss =>
  (deltaOf fuel event clock tols "time").bind fun dt =>
  (deltaOf fuel event clock tols "stage_time").bind fun dst =>
  (deltaOf fuel event clock tols "real_time").bind fun dr =>
  some (minOpt [ds, dss, s.1], minOpt [dt, dst, s.2.1], minOpt [dr, s.2.2])

/-- The `delta(name, starting_time)` helper of `_next_time`: the absolute
next value for counter `name`, shifted by `clock[starting_time]` when a
starting counter is given; `none` for a boolean next result. -/
def deltaFrom (fuel : ℕ) (event : WhenSpec) (clock : TimeDict)
    (tols : Option (List (String × ℚ))) (name : String)
    (starting : Option String) : Option (Option ℚ) :=
  (whenNext fuel event name clock tols).bind fun n =>
    match n with
    | .bool _ => some none
    | .num q =>
      match starting with
      | none => some (some q)
      | some st =>
        match tdGet clock st with
        | none => none
        | some c => some (some (q - c.toQ))

/-- `_next_time(event, clock, tols)`: the triple of absolute counter values
`(next_step, next_time, next_real_time)` for the next event. -/
def nextTriple (fuel : ℕ) (event : WhenSpec) (clock : TimeDict)
    (tols : Option (List (String × ℚ))) : Option Triple :=
  (deltaFrom fuel event clock tols "time" (some "zero_stage_time")).bind fun dt =>
  (deltaFrom fuel event clock tols "stage_time" none).bind fun dst =>
  (deltaFrom fuel event clock tols "step" (some "zero_stage_step")).bind fun ds =>
  (deltaFrom fuel event clock tols "stage_step" none).bind fun dss =>
  (deltaFrom fuel event clock tols "real_time" none).bind fun dr =>
  some (minOpt [ds, dss], minOpt [dt, dst], dr)

/-! ## hysteresis.py: action schedule builder -/

/-- One entry of a save/do tuple: a direct callable (identified by its
string representation), a string tag, a When object, or any other Python
object (neither callable nor string). -/
inductive PyItem where
  | callable (name : String)
  | str (s : String)
  | whenVal (w : WhenSpec)
  | other (name : String)
deriving DecidableEq, Repr

/-- One element of the save/do argument: an iterable tuple of items, or a
non-iterable object (on which `list(tuple_item)` raises TypeError). -/
inductive PyTup where
  | tup (items : List PyItem)
  | notIterable
deriving DecidableEq, Repr

/-- The save/do argument itself: a list, or a non-iterable object. -/
inductive PyArg where
  | list (tups : List PyTup)
  | notIterable
deriving DecidableEq, Repr

/-- The two ValueErrors of `_append_x_list`: the "I don't know how to do
it" configuration error (naming the offending thing and the available
tags) and the "Bad syntax" error raised on TypeError. -/
inductive XErr where
  | unknownTag (pfx : String) (thing : PyItem) (available : List String)
  | badSyntax (pfx : String)
deriving DecidableEq, Repr

/-- Is this character collapsed by the `[ \t_]+` regex? -/
def isSep (c : Char) : Bool := c = ' ' ∨ c = '\t' ∨ c = '_'

/-- Replace every maximal run of separator characters by a single
underscore (the `re.sub(_subsequent_spaces, '_', ns)` step); `inRun` records
whether the previous character belonged to a run. -/
def collapseSep (inRun : Bool) : List Char → List Char
  | [] => []
  | c :: rest =>
    if isSep c then
      if inRun then collapseSep true rest
      else '_' :: collapseSep true rest
    else c :: collapseSep false rest

/-- `_string_normalise(s)` with the default arguments used by
`_append_x_list`: lowercase, then collapse separator runs to `_`. -/
def stringNormalise (s : String) : String :=
  String.mk (collapseSep false (s.data.map Char.toLower))

/-- Resolution of one `thing`: callables pass through; strings are looked
up first with the prefix, then without; anything else fails. -/
def resolveThing (pfx : String) (reg : List (String × String))
    (thing : PyItem) : Option String :=
  match thing with
  | .callable n => some n
  | .str s =>
    (match lookupKey reg (stringNormalise (pfx ++ " " ++ s)) with
     | some a => some a
     | none => lookupKey reg (stringNormalise s))
  | _ => none

/-- Resolve the `things` of one tuple in order, pairing each resolved
action with the tuple's `when` (its last element); the first unresolvable
thing raises the configuration error naming the available tags. -/
def resolveThings (pfx : String) (reg : List (String × String)) (w : PyItem) :
    List PyItem → Except XErr (List (String × PyItem))
  | [] => .ok []
  | th :: rest =>
    match resolveThing pfx reg th with
    | some n =>
      (resolveThings pfx reg w rest).map fun tail => (n, w) :: tail
    | none => .error (.unknownTag pfx th (reg.map Prod.fst))

/-- Split a tuple into `things = list_item[0:-1]` and `when = list_item[-1]`;
`none` for the empty tuple (which the source skips with `continue`). -/
def splitTup : List PyItem → Option (List PyItem × PyItem)
  | [] => none
  | [x] => some ([], x)
  | x :: y :: rest =>
    (splitTup (y :: rest)).map fun p => (x :: p.1, p.2)

/-- The body of the `for tuple_item in input_list` loop of
`_append_x_list`; a non-iterable element raises TypeError, caught and
re-raised as the "Bad syntax" ValueError. -/
def appendGo (pfx : String) (reg : List (String × String)) :
    List PyTup → Except XErr (List (String × PyItem))
  | [] => .ok []
  | .notIterable :: _ => .error (.badSyntax pfx)
  | .tup items :: rest =>
    (match splitTup items with
     | none => Except.ok []
     | some p => resolveThings pfx reg p.2 p.1).bind fun hd =>
      (appendGo pfx reg rest).map fun tl => hd ++ tl

/-- `_append_x_list(target, input_list, prefix, predefined_actions)` as a
pure function returning the appended `(action, when)` pairs; a
non-iterable `input_list` raises TypeError at the `for`, also re-raised
as the "Bad syntax" ValueError. -/
def appendXList (pfx : String) (reg : List (String × String)) :
    PyArg → Except XErr (List (String × PyItem))
  | .notIterable => .error (.badSyntax pfx)
  | .list tups => appendGo pfx reg tups

/-! ## hysteresis.py: one iteration of the stepping loop -/

/-- The simulation clock fields read or written by the stepping loop
(from clock.py; SI times are modelled as rationals). -/
structure HClock where
  stage : ℚ
  step : ℚ
  stage_step : ℚ
  zero_stage_step : ℚ
  time : ℚ
  stage_time : ℚ
  zero_stage_time : ℚ
  real_time : ℚ
  stage_end : Bool
  convergence : Bool
  exit_hysteresis : Bool
deriving DecidableEq, Repr

/-- The clock as the time dictionary seen by the predicate algebra. -/
def clockDict (c : HClock) : TimeDict :=
  [("stage", .num c.stage), ("step", .num c.step),
   ("stage_step", .num c.stage_step),
   ("zero_stage_step", .num c.zero_stage_step), ("time", .num c.time),
   ("stage_time", .num c.stage_time),
   ("zero_stage_time", .num c.zero_stage_time),
   ("real_time", .num c.real_time), ("stage_end", .bool c.stage_end),
   ("convergence", .bool c.convergence),
   ("exit_hysteresis", .bool c.exit_hysteresis)]

/-- An action fired by the stepping loop: `hysteresis_next_stage` and
`hysteresis_exit` from simulation_core.py, or a save callback (which does
not touch the clock — per the source, the clock is mutated only through
the two flag-setting actions). -/
inductive HAction where
  | nextStage
  | exitAction
  | save (tag : String)
deriving DecidableEq, Repr

/-- The clock effect of firing an action. -/
def applyAction : HAction → HClock → HClock
  | .nextStage, c => { c with stage_end := true }
  | .exitAction, c => { c with exit_hysteresis := true, stage_end := true }
  | .save _, c => c

/-- The `match_tolerances` of `simulation_hysteresis`:
a negligible time of 1e-20 s for the two time axes. -/
def hTols : Option (List (String × ℚ)) :=
  some [("time", mkRat 1 (10 ^ 20)), ("stage_time", mkRat 1 (10 ^ 20))]

/-- The `for what, when in thing_when_tuples` pass of the stepping loop:
each entry is checked against the pre-firing clock (`match_time` and
`my_next_time`), fired when it matches or its cached next value moved,
then its deltas are folded into the aggregate using the post-firing
clock.  Returns the final clock, the updated cache (aligned positionally
with the schedule; the source keys the cache by `str(what)` and has
already rejected duplicate actions), the fired actions in order, and the
aggregated deltas. -/
def tickActions (fuel : ℕ) :
    List (HAction × WhenSpec) → List Triple → HClock → Triple →
    Option (HClock × List Triple × List HAction × Triple)
  | [], _, c, deltas => some (c, [], [], deltas)
  | (act, w) :: srest, cached :: crest, c, deltas =>
    let nowMatch := matchTime w (clockDict c)
    (nextTriple fuel w (clockDict c) hTols).bind fun nst =>
      let fire := nowMatch || nst ≠ cached
      let c1 := if fire then applyAction act c else c
      (nextDeltas fuel w (clockDict c1) (some deltas) hTols).bind fun deltas1 =>
        (tickActions fuel srest crest c1 deltas1).bind fun r =>
          some (r.1, nst :: r.2.1, (if fire then [act] else []) ++ r.2.2.1,
                r.2.2.2)
  | _ :: _, [], _, _ => none

/-- What one iteration of the `while True` stepping loop decides to do
after the action pass. -/
inductive Outcome where
  | exitNow
  | stageEnd
  | fatalError
  | advanced
deriving DecidableEq, Repr

/-- The observable result of one iteration of the stepping loop. -/
structure TickResult where
  clock : HClock
  cache : List Triple
  fired : List HAction
  target_time : ℚ
  max_it : ℚ
  outcome : Outcome
deriving DecidableEq, Repr

/-- One iteration of the `while True` loop of `simulation_hysteresis`:
set `stage_end` from convergence, compute the convergence-check deltas,
run the action pass, derive `target_time` and `max_it`, then in order:
return if the exit flag is set, break if the stage-end flag is set,
otherwise advance time (the integrator's result is the oracle
`timeReached`) and raise the runaway error when the reached time exceeds
99% of `max_time_reached`. -/
def hysteresisTick (fuel : ℕ) (convCheck : WhenSpec)
    (sched : List (HAction × WhenSpec)) (cache : List Triple) (c0 : HClock)
    (maxTimeReached : ℚ) (timeReached : ℚ) : Option TickResult :=
  let c := { c0 with stage_end := c0.convergence }
  (nextDeltas fuel convCheck (clockDict c) none hTols).bind fun deltas0 =>
    (tickActions fuel sched cache c deltas0).bind fun r =>
      let c1 := r.1
      let dstep := r.2.2.2.1
      let dtime := r.2.2.2.2.1
      let target := match dtime with
        | none => maxTimeReached
        | some dt => c1.stage_time + dt
      let maxIt : ℚ := match dstep with
        | none => -1
        | some d => d
      let outcome :=
        if c1.exit_hysteresis then Outcome.exitNow
        else if c1.stage_end then Outcome.stageEnd
        else if mkRat 99 100 * maxTimeReached < timeReached then
          Outcome.fatalError
        else Outcome.advanced
      some { clock := c1, cache := r.2.1, fired := r.2.2.1,
             target_time := target, max_it := maxIt, outcome := outcome }

/-! ## throttler.py -/

/-- `Throttler.is_allowed(key, report_delay)` with `time.monotonic()`
passed in as `now`: returns the decision and the updated `last_called`
map. -/
def isAllowed (last_called : List (String × ℚ)) (key : String)
    (report_delay : ℚ) (now : ℚ) : Bool × List (String × ℚ) :=
  let last_time := (lookupKey last_called key).getD 0
  if report_delay ≤ now - last_time then (true, setKey last_called key now)
  else (false, last_called)

/-! ## Claim-side definitions -/

/-- The combined predicate of the golden end-to-end trace:
`(every('step',2,last=21) & every('step',4,first=10)) | at('step',15)`. -/
def goldenSpec : WhenSpec :=
  .orSpec
    (.andSpec (.everySpec "step" (some 2) 0 (some 21))
              (.everySpec "step" (some 4) 10 none))
    (.atSpec "step" (.num 15))

/-- Modelled from the spec's wording of the OR combinator: or both children's
next values when both are boolean, return the other child when one is
False, return True when either child is True, otherwise the minimum of
the two numeric values. -/
def orClaimNext (n1 n2 : PyVal) : PyVal :=
  match n1, n2 with
  | .bool b1, .bool b2 => .bool (b1 || b2)
  | .bool false, n => n
  | n, .bool false => n
  | .bool true, _ => .bool true
  | _, .bool true => .bool true
  | .num q1, .num q2 => .num (min q1 q2)

/-- What it means to be the aggregate of a candidate list in the claim's
sense: `none` exactly when no candidate constrains the axis, otherwise
the minimum of the non-`none` candidates. -/
def isMinOpt (cands : List (Option ℚ)) (r : Option ℚ) : Prop :=
  (r = none ∧ ∀ c ∈ cands, c = none) ∨
  (∃ m, r = some m ∧ some m ∈ cands ∧ ∀ q : ℚ, some q ∈ cands → m ≤ q)

/-! ## Theorems -/

theorem foldl_min_mem (x : ℚ) (xs : List ℚ) : xs.foldl min x ∈ x :: xs := by
  induction xs generalizing x with
  | nil => simp
  | cons y ys ih =>
    simp only [List.foldl_cons]
    have hmem := ih (min x y)
    rcases List.mem_cons.mp hmem with h | h
    · rw [h]
      rcases min_choice x y with h' | h' <;> rw [h'] <;> simp
    · simp [List.mem_cons_of_mem, h]

theorem foldl_min_le (x : ℚ) (xs : List ℚ) :
    ∀ y ∈ x :: xs, xs.foldl min x ≤ y := by
  induction xs generalizing x with
  | nil =>
    intro y hy
    simp only [List.mem_singleton] at hy
    simp [hy]
  | cons z zs ih =>
    intro y hy
    simp only [List.foldl_cons]
    have hle : zs.foldl min (min x z) ≤ min x z :=
      ih (min x z) (min x z) (List.mem_cons_self _ _)
    rcases List.mem_cons.mp hy with h | h
    · subst h
      exact le_trans hle (min_le_left _ _)
    · rcases List.mem_cons.mp h with h2 | h2
      · subst h2
        exact le_trans hle (min_le_right _ _)
      · exact ih (min x z) y (List.mem_cons_of_mem _ h2)

/-- `minOpt` computes exactly the claim-side aggregate. -/
theorem minOpt_isMinOpt (cands : List (Option ℚ)) :
    isMinOpt cands (minOpt cands) := by
  unfold minOpt
  cases hfm : cands.filterMap id with
  | nil =>
    left
    refine ⟨rfl, fun c hc => ?_⟩
    have := List.filterMap_eq_nil_iff.mp hfm c hc
    simpa using this
  | cons x xs =>
    right
    refine ⟨xs.foldl min x, rfl, ?_, ?_⟩
    · have hx : xs.foldl min x ∈ cands.filterMap id :=
        hfm ▸ foldl_min_mem x xs
      rcases List.mem_filterMap.mp hx with ⟨a, ha, hida⟩
      cases a with
      | none => simp at hida
      | some v =>
        simp only [id_eq, Option.some.injEq] at hida
        exact hida ▸ ha
    · intro q hq
      have : q ∈ cands.filterMap id := List.mem_filterMap.mpr ⟨some q, hq, rfl⟩
      rw [hfm] at this
      exact foldl_min_le x xs q this

/-- C1: iterating `next_time('step', clock)` of
`(every('step',2,last=21) & every('step',4,first=10)) | at('step',15)`
from step 0, writing back the returned value each time, yields exactly
0 → 10 → 14 → 15 → 18 → False. -/
theorem golden_trace :
    nextTime 9 goldenSpec "step" [("step", .num 0)] = some (.num 10) ∧
    nextTime 9 goldenSpec "step" [("step", .num 10)] = some (.num 14) ∧
    nextTime 9 goldenSpec "step" [("step", .num 14)] = some (.num 15) ∧
    nextTime 9 goldenSpec "step" [("step", .num 15)] = some (.num 18) ∧
    nextTime 9 goldenSpec "step" [("step", .num 18)] = some (.bool false) := by
  decide

/-- C3: for `every('step', 5, first=10, last=20)` the spec is not matched at
step 5 where `next` is 10; it is matched at step 20 (the `last` bound is
inclusive for matching) where `next` is False; and `next` is False
whenever the current counter value exceeds `last`. -/
theorem every_first_last (fuel : ℕ) :
    matchTime (.everySpec "step" (some 5) 10 (some 20))
      [("step", .num 5)] = false ∧
    nextTime 1 (.everySpec "step" (some 5) 10 (some 20)) "step"
      [("step", .num 5)] = some (.num 10) ∧
    matchTime (.everySpec "step" (some 5) 10 (some 20))
      [("step", .num 20)] = true ∧
    nextTime 1 (.everySpec "step" (some 5) 10 (some 20)) "step"
      [("step", .num 20)] = some (.bool false) ∧
    (∀ (sid : String) (delta : Option ℚ) (first l t : ℚ) (clock : TimeDict),
      tdGet clock sid = some (.num t) → l < t →
      nextTime (fuel + 1) (.everySpec sid delta first (some l)) sid clock =
        some (.bool false)) := by
  refine ⟨by decide, by decide, by decide, by decide, ?_⟩
  intro sid delta first l t clock hget hlt
  simp [nextTime, everyNext, hget, pastLast, PyVal.toQ, le_of_lt hlt]

/-- Witness for `every_first_last` at step 21 of `every('step',5,first=10,last=20)`. -/
theorem every_first_last_witness :
    nextTime 1 (.everySpec "step" (some 5) 10 (some 20)) "step"
      [("step", .num 21)] = some (.bool false) :=
  (every_first_last 0).2.2.2.2 "step" (some 5) 10 20 21
    [("step", .num 21)] (by decide) (by decide)

/-- C4: for every Or predicate, identifier and clock whose children both
produce a next value, the Or's next value is exactly the spec's
combination rule (`orClaimNext`): boolean OR when both are boolean, the
other child when one is False, True when either is True, else the
minimum — preserving the three-valued False/True/number contract. -/
theorem or_next_combines (fuel : ℕ) (s1 s2 : WhenSpec) (id : String)
    (t : TimeDict) (n1 n2 : PyVal)
    (h1 : nextTime fuel s1 id t = some n1)
    (h2 : nextTime fuel s2 id t = some n2) :
    nextTime (fuel + 1) (.orSpec s1 s2) id t = some (orClaimNext n1 n2) := by
  have hcomb : orCombine n1 n2 = orClaimNext n1 n2 := by
    rcases n1 with b1 | q1 <;> rcases n2 with b2 | q2
    · cases b1 <;> cases b2 <;> rfl
    · cases b1 <;> rfl
    · cases b2 <;> rfl
    · rfl
  simp [nextTime, h1, h2, hcomb]

/-- Witness for `or_next_combines` on `at('step',5) | at('step',3)` at step 0. -/
theorem or_next_combines_witness :
    nextTime 2 (.orSpec (.atSpec "step" (.num 5)) (.atSpec "step" (.num 3)))
      "step" [("step", .num 0)] = some (orClaimNext (.num 5) (.num 3)) :=
  or_next_combines 1 (.atSpec "step" (.num 5)) (.atSpec "step" (.num 3))
    "step" [("step", .num 0)] (.num 5) (.num 3) (by decide) (by decide)

/-- C10: when the predicate's own identifier is absent from the clock
mapping, `match_time` and `next_time` of an Every spec both return False
rather than raising, and `next_time` of an And spec returns False as
well. -/
theorem missing_identifier_false (fuel : ℕ) (sid : String) (delta : Option ℚ)
    (first : ℚ) (last : Option ℚ) (clock : TimeDict) (s1 s2 : WhenSpec)
    (h : tdGet clock sid = none) :
    matchTime (.everySpec sid delta first last) clock = false ∧
    nextTime (fuel + 1) (.everySpec sid delta first last) sid clock =
      some (.bool false) ∧
    nextTime (fuel + 1) (.andSpec s1 s2) sid clock = some (.bool false) := by
  refine ⟨?_, ?_, ?_⟩
  · simp [matchTime, everyMatch, h]
  · simp [nextTime, everyNext, h]
  · simp [nextTime, h]

/-- C5 counterexample: the claim says the wrapper applies the tolerance
nudge only to numeric results, but Python's `isinstance(nt, (int, float))`
is true for bools (bool is a subclass of int), so a boolean raw result is
nudged as well: for `every('time', first=0, last=1.2)` at time 0.9 with
tolerance 0.5 for 'time', the raw next value is True (= 1, within 0.5 of
0.9), and the wrapper recomputes at time 1.5 — past `last` — returning
False instead of True. -/
theorem tolerance_nudge_bool_counterexample :
    nextTime 1 (.everySpec "time" none 0 (some (mkRat 6 5))) "time"
      [("time", .num (mkRat 9 10))] = some (.bool true) ∧
    whenNext 1 (.everySpec "time" none 0 (some (mkRat 6 5))) "time"
      [("time", .num (mkRat 9 10))] (some [("time", mkRat 1 2)]) =
      some (.bool false) := by
  decide

/-- C5 amended: the tolerance nudge applies to every raw result — numeric
or boolean, bools being coerced to 0/1 as Python ints.  Concretely, for
`every('step', 10)` at step 9.999 the wrapper returns 10 with no
tolerance and 20 with tolerance 0.01 for 'step'; and in general, whenever
a tolerance is configured for the identifier, the current value is
present, and the raw next value (coerced to a number) is within the
positive tolerance of the current value, the wrapper recomputes the next
value on a clock where the identifier is set to the raw value plus the
tolerance. -/
theorem tolerance_nudge (fuel : ℕ) :
    whenNext 1 (.everySpec "step" (some 10) 0 none) "step"
      [("step", .num (mkRat 9999 1000))] none = some (.num 10) ∧
    whenNext 1 (.everySpec "step" (some 10) 0 none) "step"
      [("step", .num (mkRat 9999 1000))] (some [("step", mkRat 1 100)]) =
      some (.num 20) ∧
    (∀ (spec : WhenSpec) (id : String) (t : TimeDict)
       (m : List (String × ℚ)) (tol : ℚ) (nt tt : PyVal),
      nextTime fuel spec id t = some nt →
      lookupKey m id = some tol →
      tdGet t id = some tt →
      0 < tol → |nt.toQ - tt.toQ| < tol →
      whenNext fuel spec id t (some m) =
        nextTime fuel spec id (tdSet t id (.num (nt.toQ + tol)))) := by
  refine ⟨by decide, by decide, ?_⟩
  intro spec id t m tol nt tt hnt hm htt htol hclose
  simp [whenNext, hnt, hm, htt, htol, hclose]

/-- Witness for `tolerance_nudge`: the general nudge rule applied to the
boolean raw result of `every('time', first=0, last=1.2)` at time 0.9. -/
theorem tolerance_nudge_witness :
    whenNext 1 (.everySpec "time" none 0 (some (mkRat 6 5))) "time"
      [("time", .num (mkRat 11 10))] (some [("time", mkRat 1 2)]) =
      nextTime 1 (.everySpec "time" none 0 (some (mkRat 6 5))) "time"
        (tdSet [("time", .num (mkRat 11 10))] "time"
          (.num (PyVal.toQ (.bool true) + mkRat 1 2))) :=
  (tolerance_nudge 1).2.2 (.everySpec "time" none 0 (some (mkRat 6 5)))
    "time" [("time", .num (mkRat 11 10))] [("time", mkRat 1 2)]
    (mkRat 1 2) (.bool true) (.num (mkRat 11 10))
    (by decide) (by decide) (by decide) (by decide) (by decide)

/-- Witness for `missing_identifier_false` on the empty clock. -/
theorem missing_identifier_false_witness :
    nextTime 1 (.andSpec .neverSpec .neverSpec) "step" [] =
      some (.bool false) :=
  (missing_identifier_false 0 "step" none 0 none [] .neverSpec .neverSpec
    (by decide)).2.2

/-- C6: for every event predicate and clock on which `_next_deltas`
succeeds, the per-counter deltas are next-match value minus current value
for numeric next results and no constraint for boolean next results, and
each axis aggregate is the minimum of its non-`none` candidates — the two
step counters (plus the suggested prior value) for the step axis, the two
time counters for the time axis, the real-time counter for the real-time
axis — defaulting to `none` when no candidate constrains the axis. -/
theorem next_deltas_spec (fuel : ℕ) (event : WhenSpec) (clock : TimeDict)
    (suggest : Option Triple) (tols : Option (List (String × ℚ)))
    (res : Triple)
    (h : nextDeltas fuel event clock suggest tols = some res) :
    (∀ (name : String) (b : Bool),
      whenNext fuel event name clock tols = some (.bool b) →
      deltaOf fuel event clock tols name = some none) ∧
    (∀ (name : String) (q : ℚ) (cv : PyVal),
      whenNext fuel event name clock tols = some (.num q) →
      tdGet clock name = some cv →
      deltaOf fuel event clock tols name = some (some (q - cv.toQ))) ∧
    ∃ ds dss dt dst dr,
      deltaOf fuel event clock tols "step" = some ds ∧
      deltaOf fuel event clock tols "stage_step" = some dss ∧
      deltaOf fuel event clock tols "time" = some dt ∧
      deltaOf fuel event clock tols "stage_time" = some dst ∧
      deltaOf fuel event clock tols "real_time" = some dr ∧
      isMinOpt [ds, dss, (suggest.getD (none, none, none)).1] res.1 ∧
      isMinOpt [dt, dst, (suggest.getD (none, none, none)).2.1] res.2.1 ∧
      isMinOpt [dr, (suggest.getD (none, none, none)).2.2] res.2.2 := by
  refine ⟨?_, ?_, ?_⟩
  · intro name b hb
    simp [deltaOf, hb]
  · intro name q cv hq hcv
    simp [deltaOf, hq, hcv]
  · unfold nextDeltas at h
    cases hds : deltaOf fuel event clock tols "step" with
    | none => rw [hds] at h; simp at h
    | some ds =>
    cases hdss : deltaOf fuel event clock tols "stage_step" with
    | none => rw [hds, hdss] at h; simp at h
    | some dss =>
    cases hdt : deltaOf fuel event clock tols "time" with
    | none => rw [hds, hdss, hdt] at h; simp at h
    | some dt =>
    cases hdst : deltaOf fuel event clock tols "stage_time" with
    | none => rw [hds, hdss, hdt, hdst] at h; simp at h
    | some dst =>
    cases hdr : deltaOf fuel event clock tols "real_time" with
    | none => rw [hds, hdss, hdt, hdst, hdr] at h; simp at h
    | some dr =>
      rw [hds, hdss, hdt, hdst, hdr] at h
      simp only [Option.some_bind, Option.some.injEq] at h
      subst h
      exact ⟨ds, dss, dt, dst, dr, rfl, rfl, rfl, rfl, rfl,
        minOpt_isMinOpt _, minOpt_isMinOpt _, minOpt_isMinOpt _⟩

/-- Witness for `next_deltas_spec` on `every('step', 5)` over a clock at
step 0. -/
theorem next_deltas_spec_witness :
    deltaOf 1 (.everySpec "step" (some 5) 0 none) [("step", .num 0)]
      none "time" = some none :=
  (next_deltas_spec 1 (.everySpec "step" (some 5) 0 none)
    [("step", .num 0)] none none (some 5, none, none) (by decide)).1
    "time" true (by decide)

theorem lookupKey_setKey_self {β : Type} (l : List (String × β)) (k : String)
    (v : β) : lookupKey (setKey l k v) k = some v := by
  induction l with
  | nil => simp [setKey, lookupKey]
  | cons p rest ih =>
    obtain ⟨k2, v2⟩ := p
    by_cases h : k2 = k
    · subst h; simp [setKey, lookupKey]
    · simp [setKey, lookupKey, h, ih]

theorem lookupKey_setKey_ne {β : Type} (l : List (String × β)) (k k2 : String)
    (v : β) (hne : k2 ≠ k) :
    lookupKey (setKey l k v) k2 = lookupKey l k2 := by
  have hne2 : k ≠ k2 := fun hh => hne hh.symm
  induction l with
  | nil => simp [setKey, lookupKey, hne2]
  | cons p rest ih =>
    obtain ⟨k3, v3⟩ := p
    by_cases h : k3 = k
    · subst h; simp [setKey, lookupKey, hne2]
    · by_cases h2 : k3 = k2 <;> simp [setKey, lookupKey, h, h2, hne, hne2, ih]

/-- C9: `Throttler.is_allowed` mutates its state only when it returns True:
a False return leaves the `last_called` map unchanged, and a True return
sets the entry of its own key to `now` while leaving every other key's
entry unchanged. -/
theorem is_allowed_frame (last_called : List (String × ℚ)) (key : String)
    (report_delay now : ℚ) :
    ((isAllowed last_called key report_delay now).1 = false →
      (isAllowed last_called key report_delay now).2 = last_called) ∧
    ((isAllowed last_called key report_delay now).1 = true →
      lookupKey (isAllowed last_called key report_delay now).2 key =
        some now ∧
      ∀ k2, k2 ≠ key →
        lookupKey (isAllowed last_called key report_delay now).2 k2 =
          lookupKey last_called k2) := by
  unfold isAllowed
  by_cases h : report_delay ≤ now - (lookupKey last_called key).getD 0
  · simp only [h, if_true]
    refine ⟨by simp, fun _ => ⟨lookupKey_setKey_self _ _ _, ?_⟩⟩
    intro k2 hk2
    exact lookupKey_setKey_ne _ _ _ _ hk2
  · simp [h]

/-- Witness for `is_allowed_frame`: an allowed call for key "a" leaves the
entry of key "b" unchanged. -/
theorem is_allowed_frame_witness :
    lookupKey (isAllowed [("a", 5), ("b", 7)] "a" 1 10).2 "b" = some 7 :=
  ((is_allowed_frame [("a", 5), ("b", 7)] "a" 1 10).2 (by decide)).2 "b"
    (by decide)

/-- Processing a concatenated schedule list concatenates the appended
pairs, propagating the first error. -/
theorem appendGo_append (pfx : String) (reg : List (String × String))
    (pre rest : List PyTup) :
    appendGo pfx reg (pre ++ rest) =
      (appendGo pfx reg pre).bind fun l1 =>
        (appendGo pfx reg rest).map fun l2 => l1 ++ l2 := by
  induction pre with
  | nil =>
    cases h2 : appendGo pfx reg rest <;>
      simp [appendGo, Except.bind, Except.map, h2]
  | cons p pre ih =>
    cases p with
    | notIterable => simp [appendGo, Except.bind]
    | tup items =>
      simp only [List.cons_append, appendGo]
      rw [show pre.append rest = pre ++ rest from rfl, ih]
      generalize (match splitTup items with
        | none => Except.ok []
        | some p => resolveThings pfx reg p.2 p.1) = hd0
      cases hd0 <;> cases h1 : appendGo pfx reg pre <;>
        cases h2 : appendGo pfx reg rest <;>
          simp [Except.bind, Except.map, h1, h2, List.append_assoc]

/-- C7 counterexample: an empty tuple in the schedule list is skipped
silently (`if not list_item: continue`), it does not raise the bad-syntax
error the claim requires for empty tuples. -/
theorem append_x_list_empty_tuple_counterexample :
    appendXList "save" [("save_averages", "f_avg")] (.list [.tup []]) =
      .ok [] := rfl

/-- C7 amended: a string tag that resolves to no registered action (with
the prefixed-then-unprefixed lookup) raises the configuration error naming
the available tags; a non-iterable schedule argument or a non-iterable
tuple element raises the distinct bad-syntax error, and a tuple-level
resolution error aborts the whole build; empty tuples are skipped
silently rather than raising. -/
theorem append_x_list_errors (pfx : String) (reg : List (String × String)) :
    (appendXList pfx reg .notIterable = .error (.badSyntax pfx)) ∧
    (∀ (pre rest : List PyTup) (l : List (String × PyItem)),
      appendGo pfx reg pre = .ok l →
      appendGo pfx reg (pre ++ PyTup.notIterable :: rest) =
        .error (.badSyntax pfx)) ∧
    (∀ (pre rest : List PyTup),
      appendGo pfx reg (pre ++ PyTup.tup [] :: rest) =
        appendGo pfx reg (pre ++ rest)) ∧
    (∀ s : String, lookupKey reg (stringNormalise (pfx ++ " " ++ s)) = none →
      lookupKey reg (stringNormalise s) = none →
      ∀ (w : PyItem) (things1 rest2 : List PyItem)
        (l1 : List (String × PyItem)),
        resolveThings pfx reg w things1 = .ok l1 →
        resolveThings pfx reg w (things1 ++ PyItem.str s :: rest2) =
          .error (.unknownTag pfx (.str s) (reg.map Prod.fst))) ∧
    (∀ (items things : List PyItem) (w : PyItem) (rest : List PyTup)
       (e : XErr),
      splitTup items = some (things, w) →
      resolveThings pfx reg w things = .error e →
      appendGo pfx reg (.tup items :: rest) = .error e) := by
  refine ⟨rfl, ?_, ?_, ?_, ?_⟩
  · intro pre rest l hok
    rw [appendGo_append, hok]
    simp [appendGo, Except.bind, Except.map]
  · intro pre rest
    rw [appendGo_append, appendGo_append]
    have hhd : appendGo pfx reg (PyTup.tup [] :: rest) =
        appendGo pfx reg rest := by
      cases h2 : appendGo pfx reg rest <;>
        simp [appendGo, splitTup, Except.bind, Except.map, h2]
    rw [hhd]
  · intro s h1 h2 w things1 rest2 l1 hok
    induction things1 generalizing l1 with
    | nil =>
      simp [resolveThings, resolveThing, h1, h2]
    | cons th things1 ih =>
      cases hr : resolveThing pfx reg th with
      | none => simp [resolveThings, hr] at hok
      | some n =>
        simp only [resolveThings, hr] at hok
        simp only [List.cons_append, resolveThings, hr]
        cases ht : resolveThings pfx reg w things1 with
        | error e => rw [ht] at hok; simp [Except.map] at hok
        | ok l2 =>
          rw [show things1.append (PyItem.str s :: rest2) =
                things1 ++ PyItem.str s :: rest2 from rfl, ih l2 ht]
          simp [Except.map]
  · intro items things w rest e hsplit hres
    simp [appendGo, hsplit, hres, Except.bind]

/-- Witness for `append_x_list_errors`: the unknown tag "bad" against a
registry holding only "save_averages" raises the configuration error
naming the registry's tags. -/
theorem append_x_list_errors_witness :
    resolveThings "save" [("save_averages", "f_avg")]
      (.whenVal .neverSpec) [PyItem.str "bad"] =
      .error (.unknownTag "save" (.str "bad") ["save_averages"]) :=
  (append_x_list_errors "save" [("save_averages", "f_avg")]).2.2.2.1 "bad"
    (by decide) (by decide) (.whenVal .neverSpec) [] [PyItem.str "bad"] []
    rfl

/-- A stage-start clock: stage 1, all counters zero, all flags clear. -/
def clock0 : HClock :=
  { stage := 1, step := 0, stage_step := 0, zero_stage_step := 0, time := 0,
    stage_time := 0, zero_stage_time := 0, real_time := 0, stage_end := false,
    convergence := false, exit_hysteresis := false }

/-- A schedule whose first action forces the exit and whose second action
is a save due at the end of a stage. -/
def exitSched : List (HAction × WhenSpec) :=
  [(.exitAction, .atSpec "step" (.num 0)),
   (.save "s", .atSpec "stage_end" (.bool true))]

/-- C2 counterexample: the exit flag is only checked after the whole
action pass, so an action later in schedule order still fires in the same
tick after a fired action set the exit flag.  Here the exit action fires
at step 0, sets `exit_hysteresis` (and `stage_end`), and the save action
scheduled `at('stage_end')` then fires too — two fired actions in the
tick, against the claim that no further action fires. -/
theorem exit_tick_counterexample :
    hysteresisTick 3 (.everySpec "step" (some 5) 0 none) exitSched
      [(none, none, none), (none, none, none)] clock0 1000 0 =
      some { clock := { stage := 1, step := 0, stage_step := 0,
                        zero_stage_step := 0, time := 0, stage_time := 0,
                        zero_stage_time := 0, real_time := 0,
                        stage_end := true, convergence := false,
                        exit_hysteresis := true },
             cache := [(none, none, none), (none, none, none)],
             fired := [.exitAction, .save "s"], target_time := 1000,
             max_it := 5, outcome := .exitNow } := by
  decide

/-- C2 amended: the exit flag set by a fired action is honoured at the
per-tick exit check, after the action pass: whenever the post-pass clock
has the exit flag set, the tick's outcome is an immediate return (no
stage-end break, no time advance, no runaway check) — but actions later
in schedule order are still evaluated, and may fire, within that same
action pass. -/
theorem exit_flag_returns (fuel : ℕ) (convCheck : WhenSpec)
    (sched : List (HAction × WhenSpec)) (cache : List Triple) (c0 : HClock)
    (mtr tr : ℚ) (out : TickResult)
    (h : hysteresisTick fuel convCheck sched cache c0 mtr tr = some out)
    (hexit : out.clock.exit_hysteresis = true) :
    out.outcome = .exitNow := by
  unfold hysteresisTick at h
  dsimp only at h
  cases hd : nextDeltas fuel convCheck
      (clockDict { c0 with stage_end := c0.convergence }) none hTols with
  | none => rw [hd] at h; simp at h
  | some deltas0 =>
    rw [hd] at h
    simp only [Option.some_bind] at h
    cases ht : tickActions fuel sched cache
        { c0 with stage_end := c0.convergence } deltas0 with
    | none => rw [ht] at h; simp at h
    | some r =>
      rw [ht] at h
      simp only [Option.some_bind, Option.some.injEq] at h
      subst h
      simp only at hexit
      simp [hexit]

/-- Witness for `exit_flag_returns` on the concrete exit-firing tick. -/
theorem exit_flag_returns_witness :
    TickResult.outcome
      { clock := { stage := 1, step := 0, stage_step := 0,
                   zero_stage_step := 0, time := 0, stage_time := 0,
                   zero_stage_time := 0, real_time := 0, stage_end := true,
                   convergence := false, exit_hysteresis := true },
        cache := [(none, none, none), (none, none, none)],
        fired := [.exitAction, .save "s"], target_time := 1000,
        max_it := 5, outcome := .exitNow } = .exitNow :=
  exit_flag_returns 3 (.everySpec "step" (some 5) 0 none) exitSched
    [(none, none, none), (none, none, none)] clock0 1000 0 _
    (by decide) (by decide)

/-- C8 counterexample: the runaway check is strict — at a reached time of
exactly 99% of the sentinel (99 out of 100) the loop continues, while the
claim requires a fatal error at "at least 99%". -/
theorem runaway_boundary_counterexample :
    mkRat 99 100 * 100 ≤ 99 ∧
    hysteresisTick 2 (.everySpec "step" (some 5) 0 none) [] [] clock0
      100 99 =
      some { clock := clock0, cache := [], fired := [], target_time := 100,
             max_it := 5, outcome := .advanced } := by
  decide

/-- C8 amended: on a tick that reaches the integrator call (neither the
exit flag nor the stage-end flag is set after the action pass), the
driver raises the fatal runaway error exactly when the reached time
strictly exceeds 99% of the `max_time_reached` sentinel; at or below that
threshold the loop continues. -/
theorem runaway_error_iff (fuel : ℕ) (convCheck : WhenSpec)
    (sched : List (HAction × WhenSpec)) (cache : List Triple) (c0 : HClock)
    (mtr tr : ℚ) (out : TickResult)
    (h : hysteresisTick fuel convCheck sched cache c0 mtr tr = some out)
    (hexit : out.clock.exit_hysteresis = false)
    (hse : out.clock.stage_end = false) :
    (out.outcome = .fatalError ↔ mkRat 99 100 * mtr < tr) := by
  unfold hysteresisTick at h
  dsimp only at h
  cases hd : nextDeltas fuel convCheck
      (clockDict { c0 with stage_end := c0.convergence }) none hTols with
  | none => rw [hd] at h; simp at h
  | some deltas0 =>
    rw [hd] at h
    simp only [Option.some_bind] at h
    cases ht : tickActions fuel sched cache
        { c0 with stage_end := c0.convergence } deltas0 with
    | none => rw [ht] at h; simp at h
    | some r =>
      rw [ht] at h
      simp only [Option.some_bind, Option.some.injEq] at h
      subst h
      simp only at hexit hse
      by_cases h99 : mkRat 99 100 * mtr < tr <;> simp [hexit, hse, h99]

/-- Witness for `runaway_error_iff` on the boundary tick reaching exactly
99% of the sentinel. -/
theorem runaway_error_iff_witness :
    (TickResult.outcome
        { clock := clock0, cache := [], fired := [], target_time := 100,
          max_it := 5, outcome := .advanced } = .fatalError ↔
      mkRat 99 100 * 100 < 99) :=
  runaway_error_iff 2 (.everySpec "step" (some 5) 0 none) [] [] clock0
    100 99 _ (by decide) (by decide) (by decide)

end Nmag
